import Mathlib

/-!
# Verification of the Clip-Captioner caption pipeline

Shallow embedding of `video_captioner.py`. The pure data-transformation
core (transcript flattening, highlight decision, text-image styling,
per-word clip layout, top-level error handling) is translated into Lean
definitions; external I/O (Whisper inference, PIL rasterisation, moviepy
encoding, font loading) is abstracted at its call boundary.

Numeric conventions of the embedding:
* Python floats carrying timestamps are modelled as exact rationals `ℚ`
  (the code only moves them around, subtracts and compares them).
* `int(width // 9.6)`: `9.6 = 48/5`, so the exact value is `5*w/48` in
  natural division.  The float quotient `w/9.6` can differ from the exact
  rational only by ~1e-16 relative error, far less than the `1/48` gap to
  the nearest integer boundary for any realistic width, so natural
  division is a faithful model.
* `int(height * 0.5)` and `int(font_size * 1.5)`: `h*0.5` and `fs*1.5`
  are exact in binary floating point, so these are `h/2` and `3*fs/2`
  in natural division.
-/

/-- Python `str.strip` whitespace predicate restricted to the whitespace
characters Python strips (space, tab, newline, carriage return, vertical
tab, form feed). -/
def isPySpace (c : Char) : Bool :=
  c = ' ' || c = '\t' || c = '\n' || c = '\r' || c = '\x0b' || c = '\x0c'

/-- Strip leading and trailing whitespace from a character list
(the semantics of Python `str.strip()`). -/
def stripList (l : List Char) : List Char :=
  ((l.dropWhile isPySpace).reverse.dropWhile isPySpace).reverse

/-- Embedding of Python `str.strip()`. -/
def pyStrip (s : String) : String := ⟨stripList s.data⟩

/-- Embedding of Python `str.upper()` (ASCII-faithful; every text in this
program is ASCII). -/
def pyUpper (s : String) : String := ⟨s.data.map Char.toUpper⟩

/-- Whether a string begins or ends with a whitespace character (used to
discuss highlight entries that `str.strip` would have cleaned but the
code never strips). -/
def hasEdgeWhitespace (s : String) : Bool :=
  s.data.head?.any isPySpace || s.data.getLast?.any isPySpace

/-- A word-timing record: output of `transcribe_with_word_timestamps`
(dict with keys "text", "start", "end"). `end` is a Lean keyword, hence
the guillemets. -/
structure Word where
  text : String
  start : ℚ
  «end» : ℚ
  deriving DecidableEq, Repr

/-- A raw recogniser word entry (dict with keys "word", "start", "end")
inside a Whisper segment. -/
structure RawWord where
  word : String
  start : ℚ
  «end» : ℚ
  deriving DecidableEq, Repr

/-- A Whisper segment: `words` is `none` when the segment dict lacks the
"words" key (`if "words" in segment`). -/
structure Segment where
  words : Option (List RawWord)
  deriving DecidableEq, Repr

/-- The word-flattening loop of `transcribe_with_word_timestamps`
(lines 31-42): for each segment that has word-level detail, append one
record per word with the text stripped; segments without "words"
contribute nothing.  The Whisper call itself is external I/O; this is
the normalisation applied to its result. -/
def transcribe_collect (segments : List Segment) : List Word :=
  segments.flatMap (fun seg =>
    match seg.words with
    | some ws => ws.map (fun w => { text := pyStrip w.word, start := w.start, «end» := w.«end» })
    | none => [])

/-- RGBA colour, one channel per component. -/
def Color : Type := Nat × Nat × Nat × Nat

instance : DecidableEq Color := by unfold Color; infer_instance

/-- Stroke thickness of the text outline (`stroke_width = 4`, line 79). -/
def stroke_width : Nat := 4

/-- Integer range `[lo, hi)`, the embedding of Python `range(lo, hi)`. -/
def intRange (lo hi : Int) : List Int :=
  (List.range (hi - lo).toNat).map (fun (i : Nat) => lo + (i : Int))

/-- The offsets at which the black outline is drawn (the nested
`for dx in range(-stroke_width, stroke_width+1)` /
`for dy in ...` loops guarded by `if dx != 0 or dy != 0`, lines 80-83),
in loop order. -/
def strokeOffsets : List (Int × Int) :=
  (intRange (-(stroke_width : Int)) ((stroke_width : Int) + 1)).flatMap (fun dx =>
    (intRange (-(stroke_width : Int)) ((stroke_width : Int) + 1)).filterMap (fun dy =>
      if dx ≠ 0 ∨ dy ≠ 0 then some (dx, dy) else none))

/-- The observable content of the RGBA image produced by
`create_text_image`: canvas size, the uppercased text that is rasterised,
and the sequence of `draw.text` calls in order (offset relative to the
centred glyph origin `(x, y)`, and fill colour); a later draw paints on
top of an earlier one.  Font loading and the PIL bounding-box
measurement used to centre the text are external to the embedding. -/
structure TextImage where
  width : Nat
  height : Nat
  renderedText : String
  draws : List ((Int × Int) × Color)
  deriving DecidableEq

/-- Embedding of `create_text_image` (lines 44-91): uppercase the text,
draw the black outline at every stroke offset, then draw the main text
on top in bright yellow `(255,255,0,255)` when highlighted and
`#FAFD07 = (250,253,7,255)` otherwise. -/
def create_text_image (text : String) (_font_size : Nat) (width height : Nat)
    (is_highlight : Bool) : TextImage :=
  let text_color : Color := if is_highlight then (255, 255, 0, 255) else (250, 253, 7, 255)
  { width := width
    height := height
    renderedText := pyUpper text
    draws := strokeOffsets.map (fun p => (p, ((0, 0, 0, 255) : Color))) ++ [((0, 0), text_color)] }

/-- A caption clip as configured by the layout loop: the moviepy
`ImageClip` after `set_start`, `set_duration`, `set_position` and
`crossfadein` (lines 147-152).  This is the spec's VisualElement. -/
structure ImageClip where
  image : TextImage
  startTime : ℚ
  durationSeconds : ℚ
  position : Nat × Nat
  fadeInSeconds : ℚ
  deriving DecidableEq

/-- The line-grouping loop of `create_word_caption_clips`
(lines 114-130): accumulate words into `current_line`, flushing it into
`lines` once it reaches `words_per_line` words or at the last word. -/
def buildLines (transcript_segments : List Word) (words_per_line : Nat) : List (List Word) :=
  let n := transcript_segments.length
  (transcript_segments.enum.foldl
    (fun (st : List (List Word) × List Word) (iw : Nat × Word) =>
      let current_line := st.2 ++ [iw.2]
      if words_per_line ≤ current_line.length ∨ iw.1 = n - 1 then
        (st.1 ++ [current_line], [])
      else
        (st.1, current_line))
    ([], [])).1

/-- The per-word highlight test of line 135:
`word_data["text"].upper().strip() in highlight_words`, where
`highlight_words` has already been uppercased element-wise (line 123). -/
def is_highlight_check (text : String) (uppercased_highlights : List String) : Bool :=
  uppercased_highlights.contains (pyStrip (pyUpper text))

/-- Embedding of `create_word_caption_clips` (lines 93-156).
`highlight_words = none` models the Python default `None` (line 119-120
replaces it with `[]`).  The `lines` grouping is computed exactly as in
the source and, as in the source, not used afterwards. -/
def create_word_caption_clips (transcript_segments : List Word)
    (video_size : Nat × Nat) (highlight_words : Option (List String)) : List ImageClip :=
  let width := video_size.1
  let height := video_size.2
  let font_size := min (5 * width / 48) 125
  let caption_y := height / 2
  let hw := (highlight_words.getD []).map pyUpper
  let lines := buildLines transcript_segments 2
  transcript_segments.map (fun word_data =>
    let is_highlight := is_highlight_check word_data.text hw
    let text_img := create_text_image word_data.text font_size width (3 * font_size / 2) is_highlight
    { image := text_img
      startTime := word_data.start
      durationSeconds := word_data.«end» - word_data.start
      position := (0, caption_y)
      fadeInSeconds := (0.1 : ℚ) })

/-- `create_word_caption_clips` with the dead `lines` computation
removed; used to state that the grouping has no observable effect. -/
def create_word_caption_clips_nogrouping (transcript_segments : List Word)
    (video_size : Nat × Nat) (highlight_words : Option (List String)) : List ImageClip :=
  let width := video_size.1
  let height := video_size.2
  let font_size := min (5 * width / 48) 125
  let caption_y := height / 2
  let hw := (highlight_words.getD []).map pyUpper
  transcript_segments.map (fun word_data =>
    let is_highlight := is_highlight_check word_data.text hw
    let text_img := create_text_image word_data.text font_size width (3 * font_size / 2) is_highlight
    { image := text_img
      startTime := word_data.start
      durationSeconds := word_data.«end» - word_data.start
      position := (0, caption_y)
      fadeInSeconds := (0.1 : ℚ) })

/-- The font-size computation of line 109,
`font_size = min(int(width // 9.6), 125)`, with `9.6 = 48/5` exact. -/
def font_size_of (width : Nat) : Nat := min (5 * width / 48) 125

/-- Pipeline failure as observed by `main`: the distinguished
`FileNotFoundError` branch, or any other exception with its message. -/
inductive RunError where
  | fileNotFound
  | other (msg : String)
  deriving DecidableEq

/-- Embedding of `main` (lines 189-217): the try/except ladder.  The
pipeline body (transcribe, probe size, layout, compose) is external I/O
abstracted as an `Except` outcome carrying the output path on success.
Returns the printed message and the process exit status: `main` prints
and falls through in every branch and the script ends after `main()`
returns, so the interpreter exits with status 0 on every path. -/
def main_handler (input_video : String) (pipeline : Except RunError String) : String × Nat :=
  match pipeline with
  | Except.ok output_video => ("Successfully created captioned video: " ++ output_video, 0)
  | Except.error RunError.fileNotFound =>
      ("Error: Input video \x27" ++ input_video ++ "\x27 not found!", 0)
  | Except.error (RunError.other msg) => ("Error: " ++ msg, 0)

/-! ## Helper lemmas -/

/-- Membership in the integer-range embedding of Python `range`. -/
theorem mem_intRange {x lo hi : Int} : x ∈ intRange lo hi ↔ lo ≤ x ∧ x < hi := by
  simp only [intRange, List.mem_map, List.mem_range]
  constructor
  · rintro ⟨i, hi2, rfl⟩; omega
  · rintro ⟨h1, h2⟩; exact ⟨(x - lo).toNat, by omega, by omega⟩

/-- The stroke loop visits exactly the integer offsets of the 9x9 box
around the glyph origin, minus the origin itself. -/
theorem mem_strokeOffsets {dx dy : Int} :
    (dx, dy) ∈ strokeOffsets ↔ dx.natAbs ≤ 4 ∧ dy.natAbs ≤ 4 ∧ ¬(dx = 0 ∧ dy = 0) := by
  simp only [strokeOffsets, List.mem_flatMap, List.mem_filterMap, mem_intRange, stroke_width]
  constructor
  · rintro ⟨a, ha, b, hb, hsome⟩
    split at hsome
    · rename_i hcond
      rw [Option.some_inj] at hsome
      rw [Prod.mk.injEq] at hsome
      obtain ⟨rfl, rfl⟩ := hsome
      refine ⟨by omega, by omega, ?_⟩
      rintro ⟨rfl, rfl⟩
      simp at hcond
    · cases hsome
  · rintro ⟨h1, h2, h3⟩
    refine ⟨dx, by omega, dy, by omega, ?_⟩
    rw [if_pos (by tauto)]

/-- The highlight test on an element-wise uppercased set holds exactly
when the stripped, uppercased word equals the uppercasing of some
configured entry. -/
theorem highlight_iff (t : String) (hws : List String) :
    is_highlight_check t (hws.map pyUpper) = true ↔
      ∃ e ∈ hws, pyStrip (pyUpper t) = pyUpper e := by
  rw [is_highlight_check, List.contains_iff_exists_mem_beq]
  constructor
  · rintro ⟨e, he, hEq⟩
    rw [List.mem_map] at he
    obtain ⟨e0, he0, rfl⟩ := he
    exact ⟨e0, he0, by simpa using hEq⟩
  · rintro ⟨e, he, hEq⟩
    exact ⟨pyUpper e, List.mem_map.mpr ⟨e, he, rfl⟩, by simpa using hEq⟩

/-- The first element surviving `dropWhile p` fails `p`. -/
theorem dropWhile_head_false {α : Type} {p : α → Bool} {l : List α} {c : α} {r : List α}
    (h : l.dropWhile p = c :: r) : p c = false := by
  induction l with
  | nil => simp at h
  | cons a t ih =>
    rw [List.dropWhile_cons] at h
    split at h
    · exact ih h
    · rename_i hp; cases h; simpa using hp

/-- A stripped string never starts with whitespace. -/
theorem stripList_head_false {l : List Char} {c : Char} {r : List Char}
    (h : stripList l = c :: r) : isPySpace c = false := by
  rw [stripList] at h
  have hpre : ((l.dropWhile isPySpace).reverse.dropWhile isPySpace).reverse <+:
      l.dropWhile isPySpace := by
    have h2 := List.reverse_prefix.mpr
      (List.dropWhile_suffix (l := (l.dropWhile isPySpace).reverse) isPySpace)
    simpa using h2
  obtain ⟨tl, htl⟩ := hpre
  rw [h] at htl
  have hfinal : List.dropWhile isPySpace l = c :: (r ++ tl) := by rw [← htl]; simp
  exact dropWhile_head_false hfinal

/-- A stripped string never ends with whitespace. -/
theorem stripList_getLast_false {l : List Char} {c : Char}
    (h : (stripList l).getLast? = some c) : isPySpace c = false := by
  rw [stripList, List.getLast?_reverse] at h
  cases hz : List.dropWhile isPySpace (l.dropWhile isPySpace).reverse with
  | nil => rw [hz] at h; simp at h
  | cons z zs =>
    rw [hz] at h
    simp only [List.head?_cons, Option.some_inj] at h
    subst h
    exact dropWhile_head_false hz

/-- Uppercasing fixes whitespace characters. -/
theorem toUpper_of_space {c : Char} (h : isPySpace c = true) : c.toUpper = c := by
  simp only [isPySpace, Bool.or_eq_true, decide_eq_true_eq] at h
  rcases h with ((((h | h) | h) | h) | h) | h <;> subst h <;> decide

/-- A stripped-and-uppercased word can never equal the uppercasing of a
string that retains leading or trailing whitespace. -/
theorem strip_ne_edge_whitespace (e : String) (h : hasEdgeWhitespace e = true) (t : String) :
    pyStrip (pyUpper t) ≠ pyUpper e := by
  intro hEq
  have hdata : stripList (pyUpper t).data = e.data.map Char.toUpper := by
    have := congrArg String.data hEq
    simpa [pyStrip, pyUpper] using this
  rw [hasEdgeWhitespace, Bool.or_eq_true] at h
  rcases h with h | h
  · cases he : e.data with
    | nil => rw [he] at h; simp at h
    | cons c cs =>
      rw [he] at h
      simp only [List.head?_cons, Option.any_some] at h
      rw [he] at hdata
      simp only [List.map_cons] at hdata
      rw [toUpper_of_space h] at hdata
      have := stripList_head_false hdata
      rw [h] at this
      cases this
  · cases hg : e.data.getLast? with
    | none => rw [hg] at h; simp at h
    | some c =>
      rw [hg] at h
      simp only [Option.any_some] at h
      have hlast : (stripList (pyUpper t).data).getLast? = some c := by
        rw [hdata, List.getLast?_map, hg]
        simp [toUpper_of_space h]
      have := stripList_getLast_false hlast
      rw [h] at this
      cases this

/-! ## Claim theorems -/

/-- C1 (counterexample): the layout stage does not drop a word record
with `end = start`: on the single zero-duration word record it emits one
VisualElement whose `durationSeconds` is `0`, refuting the claim that no
zero/negative-duration element is ever emitted. -/
theorem layout_emits_zero_duration_clip :
    (create_word_caption_clips [{ text := "hi", start := 2, «end» := 2 }] (1080, 1920) none).map
      (fun e => e.durationSeconds) = [0] := by
  simp [create_word_caption_clips]

/-- C1 (amended): the layout stage performs no filtering at all: every
word record, including those with `end <= start`, yields exactly one
VisualElement with `durationSeconds = end - start` (which may be zero or
negative); no record is dropped and no hard failure occurs. -/
theorem layout_keeps_degenerate_words :
    ∀ (segs : List Word) (size : Nat × Nat) (hw : Option (List String)),
      (create_word_caption_clips segs size hw).length = segs.length ∧
      (create_word_caption_clips segs size hw).map (fun e => e.durationSeconds) =
        segs.map (fun w => w.«end» - w.start) := by
  intro segs size hw
  constructor
  · simp [create_word_caption_clips]
  · simp only [create_word_caption_clips, List.map_map]
    rfl

/-- C2: for a word sequence with no degenerate entries, layout emits
exactly one VisualElement per WordTiming, in input order, with
`startTime = word.start`, `durationSeconds = word.end - word.start`, and
`fadeInSeconds = 0.1` for every element. -/
theorem layout_one_clip_per_word (segs : List Word) (size : Nat × Nat)
    (hw : Option (List String)) (h : ∀ w ∈ segs, w.start < w.«end») :
    (create_word_caption_clips segs size hw).length = segs.length ∧
    ∀ i : Nat,
      ((create_word_caption_clips segs size hw)[i]?.map
        (fun e => (e.startTime, e.durationSeconds, e.fadeInSeconds))) =
      (segs[i]?.map (fun w => (w.start, w.«end» - w.start, (0.1 : ℚ)))) := by
  constructor
  · simp [create_word_caption_clips]
  · intro i
    simp only [create_word_caption_clips, List.getElem?_map, Option.map_map]
    cases segs[i]? <;> rfl

/-- C2 (witness): at a concrete non-degenerate word the hypothesis of
`layout_one_clip_per_word` holds and its conclusion evaluates. -/
theorem layout_one_clip_per_word_witness :
    (create_word_caption_clips [{ text := "hello", start := 0, «end» := 1 }] (1080, 1920)
      (some ["world"])).length = 1 :=
  (layout_one_clip_per_word [{ text := "hello", start := 0, «end» := 1 }] (1080, 1920)
    (some ["world"]) (by simp)).1

/-- C3: a word is highlighted iff its uppercased, stripped text is
exactly equal, as a whole string, to the uppercasing of some entry of
the highlight set; with highlight set `["amazing"]`, `"Amazing"` is
highlighted and `"amazingly"` is not. -/
theorem highlight_exact_case_insensitive :
    (∀ (t : String) (hws : List String),
      is_highlight_check t (hws.map pyUpper) = true ↔
        ∃ e ∈ hws, pyStrip (pyUpper t) = pyUpper e) ∧
    is_highlight_check "Amazing" (List.map pyUpper ["amazing"]) = true ∧
    is_highlight_check "amazingly" (List.map pyUpper ["amazing"]) = false :=
  ⟨highlight_iff, by decide, by decide⟩

/-- C3 (witness): the iff of `highlight_exact_case_insensitive` applied
at a concrete word and highlight set. -/
theorem highlight_exact_case_insensitive_witness :
    is_highlight_check "Wow" (List.map pyUpper ["wow"]) = true :=
  (highlight_exact_case_insensitive.1 "Wow" ["wow"]).mpr ⟨"wow", by simp, by decide⟩

/-- C4 (counterexample): on a failing pipeline run the top level catches
the error but the process exit status is `0`, refuting the claim that
the process exits non-zero on failure. -/
theorem main_failure_exits_zero :
    (main_handler "stitched_output.mp4" (Except.error (RunError.other "boom"))).2 = 0 := rfl

/-- C4 (amended): every failure during the pipeline is caught at the top
level and reported as a user-readable message, with input-file-not-found
reported as a distinct not-found message rather than a stack trace, but
the process exits with status 0 on every path, success or failure. -/
theorem main_catches_and_reports :
    (∀ input out, main_handler input (Except.ok out) =
      ("Successfully created captioned video: " ++ out, 0)) ∧
    (∀ input, main_handler input (Except.error RunError.fileNotFound) =
      ("Error: Input video \x27" ++ input ++ "\x27 not found!", 0)) ∧
    (∀ input msg, main_handler input (Except.error (RunError.other msg)) =
      ("Error: " ++ msg, 0)) ∧
    (∀ input r, (main_handler input r).2 = 0) := by
  refine ⟨fun _ _ => rfl, fun _ => rfl, fun _ _ => rfl, fun input r => ?_⟩
  rcases r with e | out
  · rcases e with _ | m <;> rfl
  · rfl

/-- C5: the font size equals `min(floor(width / 9.6), 125)` — in
particular `112` at width `1080` — and every emitted element's image
canvas is exactly the video width wide and `floor(fontSize * 1.5)`
tall. -/
theorem font_size_and_canvas_formula :
    (∀ w : Nat, font_size_of w = min ⌊(w : ℚ) / (9.6 : ℚ)⌋₊ 125) ∧
    font_size_of 1080 = 112 ∧
    (∀ (segs : List Word) (size : Nat × Nat) (hw : Option (List String)),
      (create_word_caption_clips segs size hw).map (fun e => (e.image.width, e.image.height)) =
        segs.map (fun _ => (size.1, ⌊(font_size_of size.1 : ℚ) * (1.5 : ℚ)⌋₊))) := by
  refine ⟨?_, by decide, ?_⟩
  · intro w
    have key : (w : ℚ) / (9.6 : ℚ) = ((5 * w : ℕ) : ℚ) / ((48 : ℕ) : ℚ) := by
      rw [show (9.6 : ℚ) = 48 / 5 by norm_num]
      push_cast
      field_simp
      ring
    rw [key, Nat.floor_div_nat, Nat.floor_natCast]
    rfl
  · intro segs size hw
    have key : (font_size_of size.1 : ℚ) * (1.5 : ℚ) =
        ((3 * font_size_of size.1 : ℕ) : ℚ) / ((2 : ℕ) : ℚ) := by
      push_cast; ring
    rw [key, Nat.floor_div_nat, Nat.floor_natCast]
    simp only [create_word_caption_clips, List.map_map]
    rfl

/-- C6: the transcript normaliser flattens all segments' word lists in
original order into one WordTiming sequence, stripping each word's text;
a segment lacking word-level detail contributes zero records; and an
input with no segments, or whose segments have no words anywhere, yields
the empty sequence rather than an error. -/
theorem transcribe_flattens_in_order :
    transcribe_collect [] = [] ∧
    (∀ segs, transcribe_collect ({ words := none } :: segs) = transcribe_collect segs) ∧
    (∀ ws segs, transcribe_collect ({ words := some ws } :: segs) =
      ws.map (fun r => { text := pyStrip r.word, start := r.start, «end» := r.«end» }) ++
        transcribe_collect segs) ∧
    (∀ segs, (∀ s ∈ segs, s.words = none ∨ s.words = some []) →
      transcribe_collect segs = []) := by
  refine ⟨rfl, fun segs => ?_, fun ws segs => ?_, fun segs => ?_⟩
  · simp [transcribe_collect]
  · simp [transcribe_collect]
  · induction segs with
    | nil => intro; rfl
    | cons s rest ih =>
      intro hall
      have hs := hall s (by simp)
      have hrest := ih (fun x hx => hall x (by simp [hx]))
      rcases hs with hs | hs <;>
        simp [transcribe_collect, List.flatMap_cons, hs] <;>
        simpa [transcribe_collect] using hrest

/-- C6 (witness): a transcript whose segments all lack word detail (or
have empty word lists) normalises to the empty sequence. -/
theorem transcribe_flattens_in_order_witness :
    transcribe_collect [{ words := none }, { words := some [] }] = [] :=
  transcribe_flattens_in_order.2.2.2 [{ words := none }, { words := some [] }] (by simp)

/-- C7: every emitted VisualElement is positioned at `x = 0` and
`y = floor(videoHeight * 0.5)`, the same fixed vertical position for all
words; at video height `1920` every element sits at `y = 960`. -/
theorem clips_fixed_position :
    (∀ (segs : List Word) (size : Nat × Nat) (hw : Option (List String)),
      (create_word_caption_clips segs size hw).map (fun e => e.position) =
        segs.map (fun _ => ((0 : Nat), ⌊(size.2 : ℚ) * (0.5 : ℚ)⌋₊))) ∧
    (∀ (segs : List Word) (hw : Option (List String)),
      (create_word_caption_clips segs (1080, 1920) hw).map (fun e => e.position.2) =
        segs.map (fun _ => 960)) := by
  constructor
  · intro segs size hw
    have key : (size.2 : ℚ) * (0.5 : ℚ) = ((size.2 : ℕ) : ℚ) / ((2 : ℕ) : ℚ) := by
      push_cast; ring
    rw [key, Nat.floor_div_nat, Nat.floor_natCast]
    simp only [create_word_caption_clips, List.map_map]
    rfl
  · intro segs hw
    simp only [create_word_caption_clips, List.map_map]
    rfl

/-- C8: each text image renders the word's text uppercased; the black
outline is drawn at exactly the integer offsets `(dx, dy)` with
`|dx| <= 4`, `|dy| <= 4`, not both zero; and the final (topmost) draw is
the fill text in `(255,255,0,255)` when highlighted and
`(250,253,7,255)` otherwise. -/
theorem text_image_stroke_and_fill :
    (∀ (text : String) (fs w h : Nat) (hl : Bool),
      (create_text_image text fs w h hl).renderedText = pyUpper text) ∧
    (∀ (text : String) (fs w h : Nat) (hl : Bool) (dx dy : Int),
      (((dx, dy), ((0, 0, 0, 255) : Color)) ∈ (create_text_image text fs w h hl).draws ↔
        dx.natAbs ≤ 4 ∧ dy.natAbs ≤ 4 ∧ ¬(dx = 0 ∧ dy = 0))) ∧
    (∀ (text : String) (fs w h : Nat),
      (create_text_image text fs w h true).draws.getLast? =
        some (((0, 0) : Int × Int), ((255, 255, 0, 255) : Color))) ∧
    (∀ (text : String) (fs w h : Nat),
      (create_text_image text fs w h false).draws.getLast? =
        some (((0, 0) : Int × Int), ((250, 253, 7, 255) : Color))) := by
  refine ⟨fun _ _ _ _ _ => rfl, ?_, ?_, ?_⟩
  · intro text fs w h hl dx dy
    have hmem : (((dx, dy), ((0, 0, 0, 255) : Color)) ∈ (create_text_image text fs w h hl).draws) ↔
        (dx, dy) ∈ strokeOffsets := by
      cases hl <;> simp [create_text_image, Color, Prod.ext_iff]
    rw [hmem, mem_strokeOffsets]
  · intro text fs w h
    simp [create_text_image, List.getLast?_concat]
  · intro text fs w h
    simp [create_text_image, List.getLast?_concat]

/-- C8 (witness): the stroke-offset iff of `text_image_stroke_and_fill`
applied at the concrete offset `(3, 4)` of a concrete image. -/
theorem text_image_stroke_and_fill_witness :
    (((3, 4) : Int × Int), ((0, 0, 0, 255) : Color)) ∈
      (create_text_image "hi" 112 1080 168 false).draws :=
  (text_image_stroke_and_fill.2.1 "hi" 112 1080 168 false 3 4).mpr (by decide)

/-- C9: the line-grouping computation (lines of two consecutive words,
last partial group still emitted) has no observable effect: layout with
the grouping step removed produces an identical VisualElement
sequence. -/
theorem grouping_no_observable_effect :
    (∀ (segs : List Word) (size : Nat × Nat) (hw : Option (List String)),
      create_word_caption_clips segs size hw =
        create_word_caption_clips_nogrouping segs size hw) ∧
    (∀ a b c : Word, buildLines [a, b, c] 2 = [[a, b], [c]]) :=
  ⟨fun _ _ _ => rfl, fun _ _ _ => rfl⟩

/-- C10: highlight-set entries are uppercased but never stripped, while
each word's text is stripped; hence an entry retaining leading or
trailing whitespace matches no word: the membership test fails for every
word text, and with such an entry as the whole highlight set every
emitted element's topmost draw uses the normal (non-highlight) fill
colour. -/
theorem whitespace_highlight_entry_matches_nothing (e : String)
    (h : hasEdgeWhitespace e = true) :
    (∀ t : String, pyStrip (pyUpper t) ≠ pyUpper e) ∧
    (∀ t : String, is_highlight_check t (List.map pyUpper [e]) = false) ∧
    (∀ (segs : List Word) (size : Nat × Nat),
      (create_word_caption_clips segs size (some [e])).map
        (fun c => c.image.draws.getLast?) =
      segs.map (fun _ => some (((0, 0) : Int × Int), ((250, 253, 7, 255) : Color)))) := by
  have hne := strip_ne_edge_whitespace e h
  have hchk : ∀ t : String, is_highlight_check t (List.map pyUpper [e]) = false := by
    intro t
    rw [Bool.eq_false_iff]
    intro habs
    rw [is_highlight_check, List.contains_iff_exists_mem_beq] at habs
    obtain ⟨b, hb, hbeq⟩ := habs
    simp only [List.map_cons, List.map_nil, List.mem_singleton] at hb
    subst hb
    exact hne t (by simpa using hbeq)
  have hchk2 : ∀ t : String, is_highlight_check t [pyUpper e] = false := hchk
  refine ⟨hne, hchk, ?_⟩
  intro segs size
  simp only [create_word_caption_clips, List.map_map]
  refine List.map_congr_left ?_
  intro w _
  simp [Function.comp, create_text_image, hchk2 w.text, List.getLast?_concat]

/-- C10 (witness): the entry `" wow "` has edge whitespace and, as shown
by `whitespace_highlight_entry_matches_nothing`, highlights nothing. -/
theorem whitespace_highlight_entry_matches_nothing_witness :
    hasEdgeWhitespace " wow " = true ∧
    is_highlight_check "wow" (List.map pyUpper [" wow "]) = false :=
  ⟨by decide, (whitespace_highlight_entry_matches_nothing " wow " (by decide)).2.1 "wow"⟩
